import Mathlib

/-!
# Verification of the remsync reconciliation core

A shallow embedding of the remsync client's server-sync logic
(`src/serversync.rs`, the `server_pull` driver in `src/main.rs`, and the
`MetadataFile` mutators in `remsync-client-types/src/local.rs`), together
with proofs and refutations of the specified properties.

Conventions of the embedding:
* Rust `HashMap<String, DocsResponse>` becomes an association list
  `DocMap := List (String × DocsResponse)`; `HashMap::insert` replaces the
  old binding, which we model by consing the new binding and filtering out
  the old key.  `HashSet<String>` becomes `List String` with membership.
* The filesystem is a flat association list from file names to `FileData`;
  `fs::remove_file` fails when the file is absent, exactly as in Rust.
  `fs::rename` can additionally fail for environmental reasons (e.g. the
  cross-device error), which the embedding exposes as an explicit boolean
  fault parameter.
* Rust `Path::set_extension` / `extension` / `file_stem` are modelled
  character-exactly on the file-name component (the store directory is
  flat, so only the final component matters).
* Time (`MetadataFile::get_now`) is an explicit `String` argument.
-/

namespace Remsync

/-- `NodeType` from `remsync-api-types/src/common.rs`. -/
inductive NodeType where
  | CollectionType : NodeType
  | DocumentType : NodeType
deriving DecidableEq, Repr

/-- `DocsResponse` from `remsync-api-types/src/responses.rs` (module `docs`). -/
structure DocsResponse where
  success : Bool
  message : String
  id : String
  version : Nat
  blob_url_get : String
  blob_url_get_expires : String
  modified_client : String
  node_type : NodeType
  name : String
  current_page : Nat
  bookmarked : Bool
  parent : String
deriving DecidableEq, Repr

/-- `MetadataFile` from `remsync-client-types/src/local.rs`. -/
structure MetadataFile where
  parent : String
  node_type : NodeType
  version : Nat
  name : String
  bookmarked : Bool
  synced : Bool
  last_modified : String
  metadata_modified : Bool
  modified : Bool
  deleted : Bool
deriving DecidableEq, Repr

namespace MetadataFile

/-- `MetadataFile::new`; `now` is the value `get_now()` would return. -/
def new (node_type : NodeType) (parent name now : String) : MetadataFile :=
  { parent := parent
    node_type := node_type
    version := 0
    name := name
    bookmarked := false
    synced := false
    last_modified := now
    metadata_modified := false
    modified := false
    deleted := false }

/-- `MetadataFile::set_metadata_modified` (private helper). -/
def set_metadata_modified (m : MetadataFile) (now : String) : MetadataFile :=
  { m with metadata_modified := true, last_modified := now }

/-- `MetadataFile::set_parent`. -/
def set_parent (m : MetadataFile) (parent now : String) : MetadataFile :=
  if m.parent ≠ parent then
    set_metadata_modified { m with parent := parent } now
  else m

/-- `MetadataFile::set_name`. -/
def set_name (m : MetadataFile) (name now : String) : MetadataFile :=
  if m.name ≠ name then
    set_metadata_modified { m with name := name } now
  else m

/-- `MetadataFile::set_bookmarked`. -/
def set_bookmarked (m : MetadataFile) (bookmarked : Bool) (now : String) : MetadataFile :=
  if m.bookmarked ≠ bookmarked then
    set_metadata_modified { m with bookmarked := bookmarked } now
  else m

/-- `MetadataFile::delete_node`. -/
def delete_node (m : MetadataFile) (now : String) : MetadataFile :=
  if ¬ m.deleted then
    set_metadata_modified { m with deleted := true } now
  else m

/-- `MetadataFile::set_modified`. -/
def set_modified (m : MetadataFile) (now : String) : MetadataFile :=
  { m with modified := true, last_modified := now }

end MetadataFile

/-! ## In-memory document map

`LocalState.docs : HashMap<String, DocsResponse>` is embedded as an
association list whose insert replaces the previous binding. -/

/-- The in-memory map of `LocalState` (`docs` field). -/
abbrev DocMap := List (String × DocsResponse)

/-- Generic string-keyed lookup: first binding for the key, if any. -/
def lookupKey {α : Type} : List (String × α) → String → Option α
  | [], _ => none
  | (k, v) :: rest, q => if k = q then some v else lookupKey rest q

/-- `HashMap::get`. -/
abbrev findDoc (m : DocMap) (k : String) : Option DocsResponse :=
  lookupKey m k

/-- `HashMap::keys`: key list of the map. -/
abbrev keysOf (m : DocMap) : List String :=
  m.map Prod.fst

/-- `HashMap::insert`: replaces any previous binding for the key. -/
def insertDoc (m : DocMap) (k : String) (d : DocsResponse) : DocMap :=
  (k, d) :: m.filter (fun kv => kv.1 ≠ k)

/-- `HashMap::remove`: drops the binding for the key. -/
def eraseDoc (m : DocMap) (k : String) : DocMap :=
  m.filter (fun kv => kv.1 ≠ k)

/-! ## Reconciler (`src/src/serversync.rs`) -/

/-- The set `client_uuids.difference(server_uuids)` computed at the top of
`LocalState::remove_not_listed`: ids present locally but not listed by the
server.  This is exactly the set of ids the deletion loop iterates over. -/
def staleIds (m : DocMap) (serverUuids : List String) : List String :=
  (keysOf m).filter (fun k => decide (k ∉ serverUuids))

/-- The condition under which `LocalState::find_changed` inserts a doc's id:
unknown locally, or known with a different version. -/
def changedCond (m : DocMap) (d : DocsResponse) : Bool :=
  match findDoc m d.id with
  | some localdoc => decide (localdoc.version ≠ d.version)
  | none => true

/-- `LocalState::find_changed`: for every doc in the server response map,
include its id if it is unknown locally or the local version differs.
(The Rust function returns `Result` but never errors; embedded as pure.) -/
def find_changed (m : DocMap) (docs : DocMap) : List String :=
  ((docs.map Prod.snd).filter (fun d => changedCond m d)).map (fun d => d.id)

/-- `LocalState::find_locally_changed`: ids known locally that are absent from
the server response or have a different version there. -/
def find_locally_changed (m : DocMap) (docs : DocMap) : List String :=
  ((m.map Prod.snd).filter (fun d =>
    match findDoc docs d.id with
    | some serverdoc => decide (serverdoc.version ≠ d.version)
    | none => true)).map (fun d => d.id)

/-- Well-formedness of the server snapshot map as `server_pull` builds it
(`docs.into_iter().map(|d| (d.id(), d)).collect()`): keys are distinct and
each value's `id` field equals its key. -/
def remoteWF (docs : DocMap) : Prop :=
  (keysOf docs).Nodup ∧ ∀ kv ∈ docs, kv.2.id = kv.1

/-- The spec's implicit up-to-date set: remote ids whose local copy exists
with an equal version — the complement, within the snapshot, of
`find_changed`'s condition. -/
def upToDateIds (m : DocMap) (docs : DocMap) : List String :=
  ((docs.map Prod.snd).filter (fun d => !(changedCond m d))).map (fun d => d.id)

/-! ## Concrete scenario data -/

/-- A minimal `DocsResponse` for concrete scenarios. -/
def mkDoc (id : String) (version : Nat) : DocsResponse :=
  { success := true
    message := ""
    id := id
    version := version
    blob_url_get := ""
    blob_url_get_expires := ""
    modified_client := ""
    node_type := NodeType.DocumentType
    name := id
    current_page := 0
    bookmarked := false
    parent := "" }

/-- Scenario A local index: `{a: v1, b: v2}`. -/
def scenALocal : DocMap :=
  [("a", mkDoc "a" 1), ("b", mkDoc "b" 2)]

/-- Scenario A remote snapshot: `{a: v1, c: v1}`. -/
def scenARemote : DocMap :=
  [("a", mkDoc "a" 1), ("c", mkDoc "c" 1)]

/-- Scenario B local index: `{a: v1}` plus a never-synced draft with
`version = 0` (the `DocsResponse` held by `LocalState` has no `synced`
field; the sync code never consults one). -/
def scenBLocal : DocMap :=
  [("a", mkDoc "a" 1), ("draft", mkDoc "draft" 0)]

/-- Scenario B remote snapshot: `{a: v1}`. -/
def scenBRemote : DocMap :=
  [("a", mkDoc "a" 1)]

/-! ## File-name semantics (Rust `std::path` on the final component)

The store directory is flat, so every path the sync code builds differs only
in its final component; the embedding works with that component alone. -/

/-- Split a character list at the last occurrence of `c`:
`splitLast c l = some (pre, post)` exactly when `l = pre ++ c :: post` with
`c ∉ post`. -/
def splitLast (c : Char) : List Char → Option (List Char × List Char)
  | [] => none
  | a :: rest =>
    match splitLast c rest with
    | some (pre, post) => some (a :: pre, post)
    | none => if a = c then some ([], rest) else none

/-- Rust `Path::file_stem`/`Path::extension` on a plain file name: with no
dot, or with a lone leading dot, the whole name is the stem and there is no
extension; otherwise split at the last dot. -/
def stemExt (l : List Char) : List Char × Option (List Char) :=
  match splitLast '.' l with
  | none => (l, none)
  | some ([], _) => (l, none)
  | some (pre, post) => (pre, some post)

/-- Rust `Path::file_stem` of a file name. -/
def fileStemS (s : String) : String :=
  ⟨(stemExt s.data).1⟩

/-- Rust `Path::extension` of a file name. -/
def extOf (s : String) : Option String :=
  ((stemExt s.data).2).map (fun l => ⟨l⟩)

/-- Rust `PathBuf::set_extension` on a file name: the stem followed by `.`
and the new extension text (which itself may contain dots). -/
def setExt (s e : String) : String :=
  ⟨(stemExt s.data).1 ++ (if e.data.isEmpty then [] else '.' :: e.data)⟩

/-- `LocalState::doc_path` (final component): the uuid with extension
`doc`. -/
def docName (uuid : String) : String :=
  setExt uuid "doc"

/-- `LocalState::zip_path` (final component): the uuid with extension
`zip`. -/
def zipName (uuid : String) : String :=
  setExt uuid "zip"

/-- `LocalState::download_path` (final component): `zip_path` with
`set_extension(".zip.tmp")`. -/
def downloadName (uuid : String) : String :=
  setExt (zipName uuid) ".zip.tmp"

/-! ## Filesystem model -/

/-- Content of one file in the modelled store directory. -/
inductive FileData where
  | doc : DocsResponse → FileData
  | blob : List Nat → FileData
  | junk : FileData
deriving DecidableEq, Repr

/-- The flat store directory: file name ↦ content. -/
abbrev Fs := List (String × FileData)

/-- Look a file up by name. -/
abbrev findFile (fs : Fs) (p : String) : Option FileData :=
  lookupKey fs p

/-- Create/overwrite a file (`fs::File::create` followed by a write). -/
def writeFile (fs : Fs) (p : String) (c : FileData) : Fs :=
  (p, c) :: fs.filter (fun f => f.1 ≠ p)

/-- `fs::remove_file`: fails when the file is absent. -/
def removeFile (fs : Fs) (p : String) : Except String Fs :=
  match findFile fs p with
  | some _ => Except.ok (fs.filter (fun f => f.1 ≠ p))
  | none => Except.error "NotFound"

/-- `fs::rename`: fails when the source is absent; `ok := false` injects an
environmental failure (such as the cross-device error), in which case the
filesystem — including the source file — is untouched. -/
def renameFile (fs : Fs) (src dst : String) (ok : Bool) : Except String Fs :=
  match findFile fs src with
  | some c =>
    if ok then Except.ok (writeFile (fs.filter (fun f => f.1 ≠ src)) dst c)
    else Except.error "rename failed"
  | none => Except.error "NotFound"

/-! ## `LocalState` operations with their filesystem effects -/

/-- `LocalState` together with the store directory it mutates. -/
structure Store where
  fs : Fs
  docs : DocMap
deriving DecidableEq, Repr

/-- The deletion loop of `LocalState::remove_not_listed` over the
precomputed stale set: remove the map entry, then the `.doc` file, then the
`.zip` file; `?` propagates the first file error, abandoning the rest of the
loop.  Returns the state as mutated so far and the error, if any. -/
def removeLoop (st : Store) : List String → Store × Option String
  | [] => (st, none)
  | k :: rest =>
    let docs1 := eraseDoc st.docs k
    match removeFile st.fs (docName k) with
    | Except.error e => ({ fs := st.fs, docs := docs1 }, some e)
    | Except.ok fs1 =>
      match removeFile fs1 (zipName k) with
      | Except.error e => ({ fs := fs1, docs := docs1 }, some e)
      | Except.ok fs2 => removeLoop { fs := fs2, docs := docs1 } rest

/-- `LocalState::remove_not_listed`. -/
def remove_not_listed (st : Store) (serverUuids : List String) : Store × Option String :=
  removeLoop st (staleIds st.docs serverUuids)

/-- `LocalState::adopt_doc`: write the metadata file, rename the temp blob
into place, and only then update the in-memory map.  `renameOk` injects a
rename failure; the metadata write is already durable at that point and the
map is untouched. -/
def adopt_doc (st : Store) (doc : DocsResponse) (zip : String) (renameOk : Bool) :
    Store × Option String :=
  let fs1 := writeFile st.fs (docName doc.id) (FileData.doc doc)
  match renameFile fs1 zip (zipName doc.id) renameOk with
  | Except.error e => ({ fs := fs1, docs := st.docs }, some e)
  | Except.ok fs2 => ({ fs := fs2, docs := insertDoc st.docs doc.id doc }, none)

/-- The scan loop of `LocalState::load_data`/`load_doc`: parse every file
whose extension is `doc` into the map, keyed by the file stem; a file with
the `doc` extension that does not parse aborts the whole load. -/
def loadLoop (m : DocMap) : Fs → Except String DocMap
  | [] => Except.ok m
  | (p, c) :: rest =>
    if extOf p = some "doc" then
      match c with
      | FileData.doc d => loadLoop (insertDoc m (fileStemS p) d) rest
      | _ => Except.error "parse error"
    else loadLoop m rest

/-- `LocalState::load_data` (as called by `LocalState::new`). -/
def load_data (fs : Fs) : Except String DocMap :=
  loadLoop [] fs

/-- The map `load_data` produces when it succeeds (`[]` on failure); used to
state load results without an existential. -/
def loadedDocs (fs : Fs) : DocMap :=
  match load_data fs with
  | Except.ok m => m
  | Except.error _ => []

/-- A directory loads cleanly: every file bearing the `doc` extension parses
as a metadata record. -/
def goodFs (fs : Fs) : Prop :=
  ∀ f ∈ fs, extOf f.1 = some "doc" → ∃ d, f.2 = FileData.doc d

/-! ## `server_pull` driver (`src/src/main.rs`)

The network portion is a collaborator: the snapshot map, the per-id blob
fetch results, and rename faults enter as parameters. -/

/-- The fetch/adopt loop of `server_pull`: create the temp file, fetch the
blob into it (`fetch` yields the bytes, `none` meaning a fetch failure),
then `adopt_doc`; every failure is propagated by `?`, aborting the pass. -/
def fetchLoop (remote : DocMap) (fetch : String → Option (List Nat))
    (renameOk : String → Bool) (st : Store) : List String → Except String Store
  | [] => Except.ok st
  | u :: rest =>
    let tmp := downloadName u
    let fs1 := writeFile st.fs tmp (FileData.blob [])
    match fetch u with
    | none => Except.error "fetch failed"
    | some b =>
      let fs2 := writeFile fs1 tmp (FileData.blob b)
      match findDoc remote u with
      | none => Except.error "no such doc"
      | some d =>
        match adopt_doc { fs := fs2, docs := st.docs } d tmp (renameOk u) with
        | (_, some e) => Except.error e
        | (st2, none) => fetchLoop remote fetch renameOk st2 rest

/-- `server_pull` once the snapshot is in hand: delete unlisted docs, then
fetch and adopt every changed doc. -/
def server_pull_sync (st : Store) (remote : DocMap) (fetch : String → Option (List Nat))
    (renameOk : String → Bool) : Except String Store :=
  match remove_not_listed st (keysOf remote) with
  | (_, some e) => Except.error e
  | (st1, none) => fetchLoop remote fetch renameOk st1 (find_changed st1.docs remote)

/-! ## Concrete stores for the scenarios -/

/-- Scenario B on disk: both `a` and the draft have their file pairs. -/
def scenBStore : Store :=
  { fs := [(docName "a", FileData.doc (mkDoc "a" 1)), (zipName "a", FileData.blob [0]),
           (docName "draft", FileData.doc (mkDoc "draft" 0)),
           (zipName "draft", FileData.blob [1])]
    docs := scenBLocal }

/-- Two stale ids `b` and `c`; `b`'s blob file is missing, so deleting `b`
fails half-way. -/
def twoStaleStore : Store :=
  { fs := [(docName "b", FileData.doc (mkDoc "b" 1)),
           (docName "c", FileData.doc (mkDoc "c" 1)), (zipName "c", FileData.blob [2])]
    docs := [("b", mkDoc "b" 1), ("c", mkDoc "c" 1)] }

/-- A store holding only id `x`'s metadata file, with the blob file absent. -/
def missingBlobStore : Store :=
  { fs := [(docName "x", FileData.doc (mkDoc "x" 1))]
    docs := [("x", mkDoc "x" 1)] }

/-- The directory after an adopt of `x` (remote version 2) is interrupted
between the metadata write and the blob rename: new metadata, old blob,
half-fetched temp file. -/
def crashFs : Fs :=
  [(docName "x", FileData.doc (mkDoc "x" 2)), (zipName "x", FileData.blob [1]),
   (downloadName "x", FileData.blob [9])]

/-- The unchanged remote snapshot listing `x` at version 2. -/
def crashRemote : DocMap :=
  [("x", mkDoc "x" 2)]

/-- The temp-file state the fetch loop builds for id `u` before adopting:
the temp file created empty, then filled with the fetched bytes `b`. -/
def fetchTempFs (st : Store) (u : String) (b : List Nat) : Fs :=
  writeFile (writeFile st.fs (downloadName u) (FileData.blob [])) (downloadName u)
    (FileData.blob b)

/-- A store holding only `a` (v1), used for a fully successful pass against
Scenario A's remote snapshot (`a` kept, `c` fetched and adopted). -/
def passStore : Store :=
  { fs := [(docName "a", FileData.doc (mkDoc "a" 1)), (zipName "a", FileData.blob [0])]
    docs := [("a", mkDoc "a" 1)] }

/-- The state after the successful pass over `passStore` (fallback
`passStore` itself is never used, since the pass succeeds). -/
def passResult : Store :=
  match server_pull_sync passStore scenARemote (fun _ => some [5]) (fun _ => true) with
  | Except.ok s => s
  | Except.error _ => passStore

/-! ## Helper lemmas on keyed lists -/

theorem lookupKey_filter {α : Type} (l : List (String × α)) (k q : String) :
    lookupKey (l.filter (fun x => x.1 ≠ k)) q = if k = q then none else lookupKey l q := by
  induction l with
  | nil => simp [lookupKey]
  | cons kv rest ih =>
    obtain ⟨k1, v1⟩ := kv
    simp only [ne_eq, decide_not] at ih ⊢
    rw [List.filter_cons]
    by_cases h1 : k1 = k
    · subst h1
      by_cases h2 : k1 = q
      · subst h2
        simp [lookupKey, ih]
      · simp [lookupKey, ih, h2]
    · by_cases h2 : k1 = q
      · subst h2
        have hkq : ¬ k = k1 := fun h => h1 h.symm
        simp [lookupKey, ih, h1, hkq]
      · simp [lookupKey, ih, h1, h2]

theorem lookupKey_isSome_iff {α : Type} (l : List (String × α)) (k : String) :
    (lookupKey l k).isSome ↔ k ∈ l.map Prod.fst := by
  induction l with
  | nil => simp [lookupKey]
  | cons kv rest ih =>
    obtain ⟨k1, v1⟩ := kv
    by_cases h : k1 = k
    · subst h
      simp [lookupKey]
    · have h' : ¬ k = k1 := fun hh => h hh.symm
      simp [lookupKey, h, h', ih]

theorem lookupKey_mem {α : Type} (l : List (String × α)) (k : String) (v : α)
    (h : lookupKey l k = some v) : (k, v) ∈ l := by
  induction l with
  | nil => simp [lookupKey] at h
  | cons kv rest ih =>
    obtain ⟨k1, v1⟩ := kv
    by_cases h1 : k1 = k
    · subst h1
      simp [lookupKey] at h
      simp [h]
    · simp [lookupKey, h1] at h
      exact List.mem_cons_of_mem _ (ih h)

theorem lookupKey_of_mem_nodup {α : Type} (l : List (String × α)) (k : String) (v : α)
    (hnd : (l.map Prod.fst).Nodup) (h : (k, v) ∈ l) : lookupKey l k = some v := by
  induction l with
  | nil => simp at h
  | cons kv rest ih =>
    obtain ⟨k1, v1⟩ := kv
    simp only [List.map_cons, List.nodup_cons] at hnd
    rcases List.mem_cons.mp h with heq | hrest
    · injection heq with hk hv
      subst hk
      subst hv
      simp [lookupKey]
    · have hk1 : k1 ≠ k := by
        intro hk
        subst hk
        exact hnd.1 (List.mem_map.mpr ⟨(k1, v), hrest, rfl⟩)
      simp [lookupKey, hk1, ih hnd.2 hrest]

theorem findDoc_insertDoc (m : DocMap) (k q : String) (d : DocsResponse) :
    findDoc (insertDoc m k d) q = if k = q then some d else findDoc m q := by
  show lookupKey ((k, d) :: m.filter (fun kv => kv.1 ≠ k)) q = _
  rw [lookupKey, lookupKey_filter]
  by_cases h : k = q <;> simp [h]

theorem findDoc_eraseDoc (m : DocMap) (k q : String) :
    findDoc (eraseDoc m k) q = if k = q then none else findDoc m q :=
  lookupKey_filter m k q

/-! ## Helper lemmas on the Reconciler sets -/

theorem mem_staleIds (m : DocMap) (server : List String) (k : String) :
    k ∈ staleIds m server ↔ k ∈ keysOf m ∧ k ∉ server := by
  simp [staleIds, List.mem_filter]

theorem mem_find_changed (m docs : DocMap) (k : String) :
    k ∈ find_changed m docs ↔
      ∃ d, d ∈ docs.map Prod.snd ∧ changedCond m d = true ∧ d.id = k := by
  simp only [find_changed, List.mem_map, List.mem_filter]
  constructor
  · rintro ⟨d, ⟨hd, hc⟩, hid⟩
    exact ⟨d, hd, hc, hid⟩
  · rintro ⟨d, hd, hc, hid⟩
    exact ⟨d, ⟨hd, hc⟩, hid⟩

theorem remote_value (docs : DocMap) (k : String) (hwf : remoteWF docs)
    (hk : k ∈ keysOf docs) : ∃ d, findDoc docs k = some d ∧ d.id = k := by
  have hs : (lookupKey docs k).isSome := (lookupKey_isSome_iff docs k).mpr hk
  obtain ⟨d, hd⟩ := Option.isSome_iff_exists.mp hs
  exact ⟨d, hd, hwf.2 (k, d) (lookupKey_mem docs k d hd)⟩

theorem mem_find_changed_wf (m docs : DocMap) (k : String) (hwf : remoteWF docs) :
    k ∈ find_changed m docs ↔
      ∃ d, findDoc docs k = some d ∧ changedCond m d = true := by
  rw [mem_find_changed]
  constructor
  · rintro ⟨d, hd, hc, hid⟩
    obtain ⟨kv, hkv, hsnd⟩ := List.mem_map.mp hd
    have hkey : kv.1 = k := by rw [← hid, ← hsnd, hwf.2 kv hkv]
    have : (k, d) ∈ docs := by
      have : kv = (k, d) := by
        obtain ⟨a, b⟩ := kv
        simp only at hkey hsnd
        rw [hkey, hsnd]
      exact this ▸ hkv
    exact ⟨d, lookupKey_of_mem_nodup docs k d hwf.1 this, hc⟩
  · rintro ⟨d, hd, hc⟩
    have hmem := lookupKey_mem docs k d hd
    exact ⟨d, List.mem_map.mpr ⟨(k, d), hmem, rfl⟩, hc, hwf.2 (k, d) hmem⟩

theorem mem_upToDateIds_wf (m docs : DocMap) (k : String) (hwf : remoteWF docs) :
    k ∈ upToDateIds m docs ↔
      ∃ d, findDoc docs k = some d ∧ changedCond m d = false := by
  simp only [upToDateIds, List.mem_map, List.mem_filter, Bool.not_eq_true']
  constructor
  · rintro ⟨d, ⟨⟨kv, hkv, hsnd⟩, hc⟩, hid⟩
    have hkey : kv.1 = k := by rw [← hid, ← hsnd, hwf.2 kv hkv]
    have : (k, d) ∈ docs := by
      have : kv = (k, d) := by
        obtain ⟨a, b⟩ := kv
        simp only at hkey hsnd
        rw [hkey, hsnd]
      exact this ▸ hkv
    exact ⟨d, lookupKey_of_mem_nodup docs k d hwf.1 this, hc⟩
  · rintro ⟨d, hd, hc⟩
    have hmem := lookupKey_mem docs k d hd
    exact ⟨d, ⟨⟨(k, d), hmem, rfl⟩, hc⟩, hwf.2 (k, d) hmem⟩

theorem changedCond_eq_false_iff (m : DocMap) (d : DocsResponse) :
    changedCond m d = false ↔
      ∃ l, findDoc m d.id = some l ∧ l.version = d.version := by
  unfold changedCond
  cases h : findDoc m d.id with
  | none => simp [h]
  | some l => simp [h]

/-- C10: mutating a `MetadataFile` presentation field to its current value is
a complete no-op — `set_parent`, `set_name`, `set_bookmarked` with an argument
equal to the stored value, and `delete_node` when `deleted` is already true,
leave every field unchanged (including `last_modified` and
`metadata_modified`); when the argument differs, exactly that field is
updated, `metadata_modified` is set and `last_modified` refreshed. -/
theorem metadata_setters_noop_on_equal (m : MetadataFile) (p n now : String) (b : Bool) :
    (m.set_parent m.parent now = m) ∧
    (m.set_name m.name now = m) ∧
    (m.set_bookmarked m.bookmarked now = m) ∧
    (m.deleted = true → m.delete_node now = m) ∧
    (m.parent ≠ p → m.set_parent p now =
      { m with parent := p, metadata_modified := true, last_modified := now }) ∧
    (m.name ≠ n → m.set_name n now =
      { m with name := n, metadata_modified := true, last_modified := now }) ∧
    (m.bookmarked ≠ b → m.set_bookmarked b now =
      { m with bookmarked := b, metadata_modified := true, last_modified := now }) ∧
    (m.deleted = false → m.delete_node now =
      { m with deleted := true, metadata_modified := true, last_modified := now }) := by
  refine ⟨?_, ?_, ?_, ?_, fun h => ?_, fun h => ?_, fun h => ?_, fun h => ?_⟩ <;>
    simp_all [MetadataFile.set_parent, MetadataFile.set_name, MetadataFile.set_bookmarked,
       MetadataFile.delete_node, MetadataFile.set_metadata_modified]

/-- C5: membership rule of `find_changed` (the spec's `OutdatedIds`): an id
listed remotely is in the set iff it is absent locally or the local version
differs from the remote one (equal versions exclude it — only the version
counter is consulted); and Scenario A behaves as specified: local
`{a: v1, b: v2}` against remote `{a: v1, c: v1}` gives stale `{b}`,
outdated `{c}`, with `a` untouched. -/
theorem outdated_membership_rule (m remote : DocMap) (k : String)
    (hwf : remoteWF remote) (hk : k ∈ keysOf remote) :
    (k ∈ find_changed m remote ↔
      findDoc m k = none ∨
        ∃ l d, findDoc m k = some l ∧ findDoc remote k = some d ∧
          l.version ≠ d.version) ∧
    staleIds scenALocal (keysOf scenARemote) = ["b"] ∧
    find_changed scenALocal scenARemote = ["c"] ∧
    "a" ∉ staleIds scenALocal (keysOf scenARemote) ∧
    "a" ∉ find_changed scenALocal scenARemote := by
  refine ⟨?_, by decide, by decide, by decide, by decide⟩
  obtain ⟨d0, hd0, hid0⟩ := remote_value remote k hwf hk
  rw [mem_find_changed_wf m remote k hwf]
  constructor
  · rintro ⟨d, hd, hc⟩
    rw [hd0] at hd
    injection hd with hdd
    subst hdd
    cases hm : findDoc m k with
    | none => exact Or.inl rfl
    | some l =>
      refine Or.inr ⟨l, d0, rfl, hd0, ?_⟩
      unfold changedCond at hc
      rw [hid0, hm] at hc
      simpa using hc
  · intro h
    refine ⟨d0, hd0, ?_⟩
    unfold changedCond
    rw [hid0]
    rcases h with hnone | ⟨l, d, hl, hd, hv⟩
    · rw [hnone]
    · rw [hl]
      rw [hd0] at hd
      injection hd with hdd
      subst hdd
      simpa using hv

/-- C5 witness: the membership rule and Scenario A, instantiated at
Scenario A with `k = "c"`. -/
theorem outdated_membership_rule_witness :
    ("c" ∈ find_changed scenALocal scenARemote ↔
      findDoc scenALocal "c" = none ∨
        ∃ l d, findDoc scenALocal "c" = some l ∧ findDoc scenARemote "c" = some d ∧
          l.version ≠ d.version) ∧
    staleIds scenALocal (keysOf scenARemote) = ["b"] ∧
    find_changed scenALocal scenARemote = ["c"] ∧
    "a" ∉ staleIds scenALocal (keysOf scenARemote) ∧
    "a" ∉ find_changed scenALocal scenARemote :=
  outdated_membership_rule scenALocal scenARemote "c" ⟨by decide, by decide⟩ (by decide)

/-- C6: `staleIds` and `find_changed` are disjoint, and every remotely
listed id is in exactly one of `find_changed` and the up-to-date set. -/
theorem stale_outdated_partition (m remote : DocMap) (k : String)
    (hwf : remoteWF remote) :
    (k ∈ staleIds m (keysOf remote) → k ∉ find_changed m remote) ∧
    (k ∈ keysOf remote → (k ∈ find_changed m remote ↔ k ∉ upToDateIds m remote)) ∧
    (k ∈ keysOf remote → k ∈ find_changed m remote ∨ k ∈ upToDateIds m remote) := by
  have hsub : k ∈ find_changed m remote → k ∈ keysOf remote := by
    intro h
    rw [mem_find_changed_wf m remote k hwf] at h
    obtain ⟨d, hd, _⟩ := h
    exact (lookupKey_isSome_iff remote k).mp (Option.isSome_iff_exists.mpr ⟨d, hd⟩)
  refine ⟨?_, fun hk => ?_, fun hk => ?_⟩
  · intro hst hch
    exact ((mem_staleIds m (keysOf remote) k).mp hst).2 (hsub hch)
  · obtain ⟨d0, hd0, _⟩ := remote_value remote k hwf hk
    rw [mem_find_changed_wf m remote k hwf, mem_upToDateIds_wf m remote k hwf]
    constructor
    · rintro ⟨d, hd, hc⟩ ⟨d', hd', hc'⟩
      rw [hd] at hd'
      injection hd' with h
      subst h
      rw [hc] at hc'
      simp at hc'
    · intro h
      refine ⟨d0, hd0, ?_⟩
      cases hcc : changedCond m d0 with
      | true => rfl
      | false => exact absurd ⟨d0, hd0, hcc⟩ h
  · obtain ⟨d0, hd0, _⟩ := remote_value remote k hwf hk
    cases hcc : changedCond m d0 with
    | true => exact Or.inl ((mem_find_changed_wf m remote k hwf).mpr ⟨d0, hd0, hcc⟩)
    | false => exact Or.inr ((mem_upToDateIds_wf m remote k hwf).mpr ⟨d0, hd0, hcc⟩)

/-- C6 witness: the partition at Scenario A with `k = "a"`. -/
theorem stale_outdated_partition_witness :
    ("a" ∈ staleIds scenALocal (keysOf scenARemote) →
      "a" ∉ find_changed scenALocal scenARemote) ∧
    ("a" ∈ keysOf scenARemote → ("a" ∈ find_changed scenALocal scenARemote ↔
      "a" ∉ upToDateIds scenALocal scenARemote)) ∧
    ("a" ∈ keysOf scenARemote → "a" ∈ find_changed scenALocal scenARemote ∨
      "a" ∈ upToDateIds scenALocal scenARemote) :=
  stale_outdated_partition scenALocal scenARemote "a" ⟨by decide, by decide⟩

/-- C1 (amended): the Sync Driver applies no never-synced-draft guard — every
local id absent from the remote snapshot, including a `version = 0` record,
is in the set passed to the deletion loop. -/
theorem version_zero_draft_in_deletion_set (m : DocMap) (server : List String)
    (k : String) (d : DocsResponse) (h1 : findDoc m k = some d)
    (_h2 : d.version = 0) (h3 : k ∉ server) :
    k ∈ staleIds m server := by
  rw [mem_staleIds]
  exact ⟨(lookupKey_isSome_iff m k).mp (Option.isSome_iff_exists.mpr ⟨d, h1⟩), h3⟩

/-- C1 witness: the amended statement at Scenario B's draft. -/
theorem version_zero_draft_in_deletion_set_witness :
    findDoc scenBLocal "draft" = some (mkDoc "draft" 0) ∧
    (mkDoc "draft" 0).version = 0 ∧
    "draft" ∈ staleIds scenBLocal (keysOf scenBRemote) :=
  ⟨by decide, by decide,
    version_zero_draft_in_deletion_set scenBLocal (keysOf scenBRemote) "draft"
      (mkDoc "draft" 0) (by decide) (by decide) (by decide)⟩

/-- C1 counterexample: at the spec's own Scenario B input, the never-synced
draft (version 0, absent remotely) IS in the set passed to deletion, and the
deletion pass removes its in-memory entry and both of its files — it does
not survive. -/
theorem draft_not_excluded_counterexample :
    "draft" ∈ staleIds scenBLocal (keysOf scenBRemote) ∧
    (remove_not_listed scenBStore (keysOf scenBRemote)).2 = none ∧
    findDoc (remove_not_listed scenBStore (keysOf scenBRemote)).1.docs "draft" = none ∧
    findFile (remove_not_listed scenBStore (keysOf scenBRemote)).1.fs (docName "draft") = none ∧
    findFile (remove_not_listed scenBStore (keysOf scenBRemote)).1.fs (zipName "draft") = none := by
  refine ⟨by decide, by decide, by decide, by decide, by decide⟩

/-! ## Helper lemmas on file-name splitting -/

theorem stringMk_data (s : String) : String.mk s.data = s := by
  cases s
  rfl

theorem splitLast_append (c : Char) (l m p q : List Char)
    (h : splitLast c m = some (p, q)) : splitLast c (l ++ m) = some (l ++ p, q) := by
  induction l with
  | nil => simpa using h
  | cons a t ih => simp [splitLast, ih]

theorem splitLast_of_not_mem (c : Char) (l : List Char) (h : c ∉ l) :
    splitLast c l = none := by
  induction l with
  | nil => rfl
  | cons a t ih =>
    simp only [List.mem_cons, not_or] at h
    have hac : ¬ a = c := fun hh => h.1 hh.symm
    simp [splitLast, ih h.2, hac]

theorem splitLast_eq (c : Char) (l p q : List Char) (h : splitLast c l = some (p, q)) :
    l = p ++ c :: q := by
  induction l generalizing p with
  | nil => simp [splitLast] at h
  | cons a t ih =>
    rw [splitLast] at h
    split at h
    · next pre post hs =>
        simp only [Option.some.injEq, Prod.mk.injEq] at h
        obtain ⟨hp, hq⟩ := h
        subst hq
        subst hp
        rw [ih pre hs]
        rfl
    · next hs =>
        split at h
        · next hac =>
            simp only [Option.some.injEq, Prod.mk.injEq] at h
            obtain ⟨hp, hq⟩ := h
            subst hq
            subst hp
            simp [hac]
        · simp at h

theorem stemExt_dotfree (l : List Char) (h : '.' ∉ l) : stemExt l = (l, none) := by
  simp [stemExt, splitLast_of_not_mem _ _ h]

theorem stemExt_append (s suffix p q : List Char)
    (h : splitLast ('.') suffix = some (p, q)) (hne : s ++ p ≠ []) :
    stemExt (s ++ suffix) = (s ++ p, some q) := by
  unfold stemExt
  rw [splitLast_append _ s suffix p q h]
  cases hsp : s ++ p with
  | nil => exact absurd hsp hne
  | cons a t => rfl

/-- The three store file names of a dot-free nonempty id, spelled out. -/
theorem store_names (id : String) (hne : id.data ≠ []) (hdot : '.' ∉ id.data) :
    (docName id).data = id.data ++ ".doc".data ∧
    (zipName id).data = id.data ++ ".zip".data ∧
    (downloadName id).data = id.data ++ "..zip.tmp".data := by
  have hdoc : (docName id).data = id.data ++ ".doc".data := by
    simp [docName, setExt, stemExt_dotfree id.data hdot]
  have hzip : (zipName id).data = id.data ++ ".zip".data := by
    simp [zipName, setExt, stemExt_dotfree id.data hdot]
  refine ⟨hdoc, hzip, ?_⟩
  have hsplit : splitLast ('.') ".zip".data = some ([], "zip".data) := by decide
  have hstem : stemExt (zipName id).data = (id.data, some "zip".data) := by
    rw [hzip]
    have := stemExt_append id.data ".zip".data [] "zip".data hsplit (by simpa using hne)
    simpa using this
  simp [downloadName, setExt, hstem]

theorem extOf_store_names (id : String) (hne : id.data ≠ []) (hdot : '.' ∉ id.data) :
    extOf (docName id) = some "doc" ∧
    extOf (zipName id) = some "zip" ∧
    extOf (downloadName id) = some "tmp" ∧
    fileStemS (docName id) = id := by
  obtain ⟨hdoc, hzip, hdl⟩ := store_names id hne hdot
  have hsplit_doc : splitLast ('.') ".doc".data = some ([], "doc".data) := by decide
  have hstem_doc : stemExt (docName id).data = (id.data, some "doc".data) := by
    rw [hdoc]
    have := stemExt_append id.data ".doc".data [] "doc".data hsplit_doc (by simpa using hne)
    simpa using this
  have hsplit_zip : splitLast ('.') ".zip".data = some ([], "zip".data) := by decide
  have hstem_zip : stemExt (zipName id).data = (id.data, some "zip".data) := by
    rw [hzip]
    have := stemExt_append id.data ".zip".data [] "zip".data hsplit_zip (by simpa using hne)
    simpa using this
  have hsplit_dl : splitLast ('.') "..zip.tmp".data =
      some ("..zip".data, "tmp".data) := by decide
  have hstem_dl : stemExt (downloadName id).data = (id.data ++ "..zip".data, some "tmp".data) := by
    rw [hdl]
    exact stemExt_append id.data "..zip.tmp".data "..zip".data "tmp".data hsplit_dl
      (by simp)
  refine ⟨?_, ?_, ?_, ?_⟩
  · simp [extOf, hstem_doc]
  · simp [extOf, hstem_zip]
  · simp [extOf, hstem_dl]
  · show String.mk (stemExt (docName id).data).1 = id
    rw [hstem_doc]

/-- C9: for a (dot-free, nonempty) id, the temporary download name carries
extension `tmp`, distinct from the metadata extension `doc` and the blob
extension `zip`; the loader parses only `doc`-extension files, so a
half-written temp download or a blob file contributes no index entry and no
load error. -/
theorem loadLoop_skip (m : DocMap) (fs : Fs) (p : String) (c : FileData)
    (h : ¬ extOf p = some "doc") : loadLoop m ((p, c) :: fs) = loadLoop m fs := by
  cases c <;> simp [loadLoop, h]

theorem temp_name_isolated (id : String) (m : DocMap) (fs : Fs) (c c' : FileData)
    (hne : id.data ≠ []) (hdot : '.' ∉ id.data) :
    extOf (docName id) = some "doc" ∧
    extOf (zipName id) = some "zip" ∧
    extOf (downloadName id) = some "tmp" ∧
    extOf (downloadName id) ≠ extOf (docName id) ∧
    extOf (downloadName id) ≠ extOf (zipName id) ∧
    loadLoop m ((downloadName id, c) :: fs) = loadLoop m fs ∧
    loadLoop m ((zipName id, c') :: fs) = loadLoop m fs := by
  obtain ⟨hdoc, hzip, htmp, _⟩ := extOf_store_names id hne hdot
  refine ⟨hdoc, hzip, htmp, ?_, ?_, ?_, ?_⟩
  · rw [htmp, hdoc]
    decide
  · rw [htmp, hzip]
    decide
  · exact loadLoop_skip m fs _ c (by rw [htmp]; decide)
  · exact loadLoop_skip m fs _ c' (by rw [hzip]; decide)

/-- C9 witness: the isolation facts at the concrete id `"x"` over the
crash-scenario directory. -/
theorem temp_name_isolated_witness :
    extOf (docName "x") = some "doc" ∧
    extOf (zipName "x") = some "zip" ∧
    extOf (downloadName "x") = some "tmp" ∧
    extOf (downloadName "x") ≠ extOf (docName "x") ∧
    extOf (downloadName "x") ≠ extOf (zipName "x") ∧
    loadLoop [] ((downloadName "x", FileData.junk) :: crashFs) = loadLoop [] crashFs ∧
    loadLoop [] ((zipName "x", FileData.blob [7]) :: crashFs) = loadLoop [] crashFs :=
  temp_name_isolated "x" [] crashFs FileData.junk (FileData.blob [7])
    (by decide) (by decide)

/-- C3 (amended): removing a stale id whose metadata file exists but whose
blob file is absent does NOT return success: `remove_not_listed` propagates
the `remove_file` error.  The in-memory entry and the metadata file are
nevertheless already gone when the error is returned, so a second call
finds nothing to delete and succeeds. -/
theorem remove_missing_blob_errors (fs : Fs) (x : String) (d : DocsResponse)
    (server : List String) (h1 : (findFile fs (docName x)).isSome = true)
    (h2 : findFile fs (zipName x) = none) (h3 : x ∉ server) :
    ((remove_not_listed { fs := fs, docs := [(x, d)] } server).2).isSome = true ∧
    (remove_not_listed { fs := fs, docs := [(x, d)] } server).1.docs = [] ∧
    findFile (remove_not_listed { fs := fs, docs := [(x, d)] } server).1.fs (docName x) = none ∧
    remove_not_listed (remove_not_listed { fs := fs, docs := [(x, d)] } server).1 server =
      ((remove_not_listed { fs := fs, docs := [(x, d)] } server).1, none) := by
  obtain ⟨cdoc, hcdoc⟩ := Option.isSome_iff_exists.mp h1
  have hstale : staleIds [(x, d)] server = [x] := by
    simp [staleIds, h3]
  have herase : eraseDoc [(x, d)] x = [] := by
    simp [eraseDoc]
  have hz2 : findFile (fs.filter (fun f => f.1 ≠ docName x)) (zipName x) = none := by
    show lookupKey (fs.filter (fun f => f.1 ≠ docName x)) (zipName x) = none
    rw [lookupKey_filter]
    by_cases hq : docName x = zipName x <;> simp [hq, h2]
  have hr : remove_not_listed { fs := fs, docs := [(x, d)] } server =
      ({ fs := fs.filter (fun f => f.1 ≠ docName x), docs := [] }, some "NotFound") := by
    unfold remove_not_listed
    simp only [hstale]
    unfold removeLoop
    simp only [herase, removeFile, hcdoc, hz2]
  rw [hr]
  refine ⟨rfl, rfl, ?_, ?_⟩
  · show lookupKey (fs.filter (fun f => f.1 ≠ docName x)) (docName x) = none
    rw [lookupKey_filter]
    simp
  · unfold remove_not_listed
    simp [staleIds, removeLoop]

/-- C3 witness: the amended statement at the concrete one-file store. -/
theorem remove_missing_blob_errors_witness :
    (findFile missingBlobStore.fs (docName "x")).isSome = true ∧
    findFile missingBlobStore.fs (zipName "x") = none ∧
    ((remove_not_listed { fs := missingBlobStore.fs, docs := [("x", mkDoc "x" 1)] } []).2).isSome
      = true ∧
    (remove_not_listed { fs := missingBlobStore.fs, docs := [("x", mkDoc "x" 1)] } []).1.docs
      = [] ∧
    findFile
      (remove_not_listed { fs := missingBlobStore.fs, docs := [("x", mkDoc "x" 1)] } []).1.fs
      (docName "x") = none ∧
    remove_not_listed
        (remove_not_listed { fs := missingBlobStore.fs, docs := [("x", mkDoc "x" 1)] } []).1 [] =
      ((remove_not_listed { fs := missingBlobStore.fs, docs := [("x", mkDoc "x" 1)] } []).1,
        none) := by
  have h := remove_missing_blob_errors missingBlobStore.fs "x" (mkDoc "x" 1) []
    (by decide) (by decide) (by decide)
  exact ⟨by decide, by decide, h.1, h.2.1, h.2.2.1, h.2.2.2⟩

/-- C3 counterexample: the claim as stated — success rather than an
`IOError` — fails at the concrete store whose blob file is absent: the
removal returns an error. -/
theorem remove_missing_blob_counterexample :
    (remove_not_listed missingBlobStore []).2 = some "NotFound" := by
  decide

/-- C7: when the rename of the temp blob fails, `adopt_doc` returns the
error, the in-memory map is exactly what it was, and the temp file is still
in place; the map is updated (to contain the adopted doc) only when the
whole adopt succeeds. -/
theorem adopt_rename_failure (st : Store) (doc : DocsResponse) (zip : String) (ok : Bool)
    (hz : (findFile st.fs zip).isSome = true) (hne : zip ≠ docName doc.id) :
    ((adopt_doc st doc zip false).2).isSome = true ∧
    (adopt_doc st doc zip false).1.docs = st.docs ∧
    findFile (adopt_doc st doc zip false).1.fs zip = findFile st.fs zip ∧
    ((adopt_doc st doc zip ok).2 = none →
      (adopt_doc st doc zip ok).1.docs = insertDoc st.docs doc.id doc) := by
  obtain ⟨c, hc⟩ := Option.isSome_iff_exists.mp hz
  have hc1 : findFile (writeFile st.fs (docName doc.id) (FileData.doc doc)) zip = some c := by
    show lookupKey ((docName doc.id, FileData.doc doc) ::
      st.fs.filter (fun f => f.1 ≠ docName doc.id)) zip = some c
    rw [lookupKey]
    rw [if_neg (fun h => hne h.symm), lookupKey_filter]
    rw [if_neg (fun h => hne h.symm)]
    exact hc
  refine ⟨?_, ?_, ?_, ?_⟩
  · simp [adopt_doc, renameFile, hc1]
  · simp [adopt_doc, renameFile, hc1]
  · simp only [adopt_doc, renameFile, hc1]
    simp only [Bool.false_eq_true, if_false]
    rw [hc1, hc]
  · intro hok
    cases hr : renameFile (writeFile st.fs (docName doc.id) (FileData.doc doc)) zip
        (zipName doc.id) ok with
    | error e =>
      simp [adopt_doc, hr] at hok
    | ok fs2 =>
      simp [adopt_doc, hr]

/-- C7 witness: rename failure at a concrete store holding only the temp
file. -/
theorem adopt_rename_failure_witness :
    ((adopt_doc { fs := [(downloadName "x", FileData.blob [9])], docs := [] }
        (mkDoc "x" 2) (downloadName "x") false).2).isSome = true ∧
    (adopt_doc { fs := [(downloadName "x", FileData.blob [9])], docs := [] }
        (mkDoc "x" 2) (downloadName "x") false).1.docs = [] ∧
    findFile (adopt_doc { fs := [(downloadName "x", FileData.blob [9])], docs := [] }
        (mkDoc "x" 2) (downloadName "x") false).1.fs (downloadName "x") =
      findFile [(downloadName "x", FileData.blob [9])] (downloadName "x") ∧
    ((adopt_doc { fs := [(downloadName "x", FileData.blob [9])], docs := [] }
        (mkDoc "x" 2) (downloadName "x") true).2 = none →
      (adopt_doc { fs := [(downloadName "x", FileData.blob [9])], docs := [] }
          (mkDoc "x" 2) (downloadName "x") true).1.docs =
        insertDoc [] (mkDoc "x" 2).id (mkDoc "x" 2)) :=
  adopt_rename_failure { fs := [(downloadName "x", FileData.blob [9])], docs := [] }
    (mkDoc "x" 2) (downloadName "x") true (by decide) (by decide)

theorem fetchLoop_cons (remote : DocMap) (fetch : String → Option (List Nat))
    (renameOk : String → Bool) (st : Store) (u : String) (rest : List String) :
    fetchLoop remote fetch renameOk st (u :: rest) =
      match fetch u with
      | none => Except.error "fetch failed"
      | some b =>
        match findDoc remote u with
        | none => Except.error "no such doc"
        | some d =>
          match adopt_doc { fs := fetchTempFs st u b, docs := st.docs } d (downloadName u)
              (renameOk u) with
          | (_, some e) => Except.error e
          | (st2, none) => fetchLoop remote fetch renameOk st2 rest := rfl

/-- C2 (amended): per-item failures are fatal, not tolerated: the first
failing file deletion aborts the deletion loop at that id (the remaining
stale ids are not processed), a deletion error aborts the whole pass before
any fetch, a fetch failure aborts the fetch/adopt loop at that id, and an
adopt failure (e.g. a failed rename) likewise aborts the loop at that id. -/
theorem per_item_failure_aborts (st : Store) (remote : DocMap)
    (fetch : String → Option (List Nat)) (renameOk : String → Bool)
    (k u u2 : String) (rest : List String) (e e2 : String) (b : List Nat)
    (d : DocsResponse) (st2 : Store)
    (hdel : (remove_not_listed st (keysOf remote)).2 = some e)
    (hdoc : findFile st.fs (docName k) = none)
    (hfetch : fetch u = none)
    (hfetch2 : fetch u2 = some b)
    (hd2 : findDoc remote u2 = some d)
    (hadopt : adopt_doc { fs := fetchTempFs st u2 b, docs := st.docs } d (downloadName u2)
      (renameOk u2) = (st2, some e2)) :
    server_pull_sync st remote fetch renameOk = Except.error e ∧
    removeLoop st (k :: rest) = ({ fs := st.fs, docs := eraseDoc st.docs k }, some "NotFound") ∧
    fetchLoop remote fetch renameOk st (u :: rest) = Except.error "fetch failed" ∧
    fetchLoop remote fetch renameOk st (u2 :: rest) = Except.error e2 := by
  refine ⟨?_, ?_, ?_, ?_⟩
  · unfold server_pull_sync
    rcases hrm : remove_not_listed st (keysOf remote) with ⟨st1, e1⟩
    rw [hrm] at hdel
    have he1 : e1 = some e := hdel
    subst he1
    rfl
  · rw [removeLoop]
    simp [removeFile, hdoc]
  · rw [fetchLoop]
    simp [hfetch]
  · rw [fetchLoop_cons, hfetch2]
    show (match findDoc remote u2 with
        | none => Except.error "no such doc"
        | some dd =>
          match adopt_doc { fs := fetchTempFs st u2 b, docs := st.docs } dd (downloadName u2)
              (renameOk u2) with
          | (_, some err) => Except.error err
          | (stx, none) => fetchLoop remote fetch renameOk stx rest) = Except.error e2
    rw [hd2]
    show (match adopt_doc { fs := fetchTempFs st u2 b, docs := st.docs } d (downloadName u2)
        (renameOk u2) with
        | (_, some err) => Except.error err
        | (stx, none) => fetchLoop remote fetch renameOk stx rest) = Except.error e2
    rw [hadopt]

/-- C2 witness: the amended abort behaviour at the two-stale-ids store, with
a fetch that fails for `z` and succeeds for `z2`, and a rename fault making
the adopt of `z2` fail. -/
theorem per_item_failure_aborts_witness :
    server_pull_sync twoStaleStore [("z2", mkDoc "z2" 1)]
      (fun x => if x = "z2" then some [3] else none) (fun _ => false) =
      Except.error "NotFound" ∧
    removeLoop twoStaleStore ["q", "c"] =
      ({ fs := twoStaleStore.fs, docs := eraseDoc twoStaleStore.docs "q" }, some "NotFound") ∧
    fetchLoop [("z2", mkDoc "z2" 1)] (fun x => if x = "z2" then some [3] else none)
      (fun _ => false) twoStaleStore ["z", "c"] = Except.error "fetch failed" ∧
    fetchLoop [("z2", mkDoc "z2" 1)] (fun x => if x = "z2" then some [3] else none)
      (fun _ => false) twoStaleStore ["z2", "c"] = Except.error "rename failed" :=
  per_item_failure_aborts twoStaleStore [("z2", mkDoc "z2" 1)]
    (fun x => if x = "z2" then some [3] else none) (fun _ => false)
    "q" "z" "z2" ["c"] "NotFound" "rename failed" [3] (mkDoc "z2" 1)
    (adopt_doc { fs := fetchTempFs twoStaleStore "z2" [3], docs := twoStaleStore.docs }
      (mkDoc "z2" 1) (downloadName "z2") false).1
    (by decide) (by decide) (by decide) (by decide) (by decide) (by rfl)

/-- C2 counterexample: the pass does NOT continue past a per-item failure.
With two stale ids where deleting the first fails (missing blob file), the
error is returned, the second stale id keeps its entry and both files, and
the driver aborts the whole pass with the deletion error; and with two
outdated ids `c`, `d` where adopting the first fails (rename fault), the
driver aborts the whole pass with the adopt error instead of continuing to
`d`. -/
theorem per_item_failure_counterexample :
    (remove_not_listed twoStaleStore []).2 = some "NotFound" ∧
    findDoc (remove_not_listed twoStaleStore []).1.docs "c" = some (mkDoc "c" 1) ∧
    findFile (remove_not_listed twoStaleStore []).1.fs (docName "c") =
      some (FileData.doc (mkDoc "c" 1)) ∧
    findFile (remove_not_listed twoStaleStore []).1.fs (zipName "c") =
      some (FileData.blob [2]) ∧
    server_pull_sync twoStaleStore [] (fun _ => some []) (fun _ => true) =
      Except.error "NotFound" ∧
    find_changed passStore.docs [("a", mkDoc "a" 1), ("c", mkDoc "c" 1), ("d", mkDoc "d" 1)] =
      ["c", "d"] ∧
    server_pull_sync passStore [("a", mkDoc "a" 1), ("c", mkDoc "c" 1), ("d", mkDoc "d" 1)]
      (fun _ => some [5]) (fun _ => false) = Except.error "rename failed" := by
  refine ⟨by decide, by decide, by decide, by decide, by rfl, by decide, by rfl⟩

/-! ## Helper lemmas on the loader -/

theorem lookupKey_insertDoc (m : DocMap) (k q : String) (d : DocsResponse) :
    lookupKey (insertDoc m k d) q = if k = q then some d else lookupKey m q :=
  findDoc_insertDoc m k q d

theorem lookupKey_eraseDoc (m : DocMap) (k q : String) :
    lookupKey (eraseDoc m k) q = if k = q then none else lookupKey m q :=
  findDoc_eraseDoc m k q

theorem loadLoop_cons (m : DocMap) (p : String) (c : FileData) (rest : Fs) :
    loadLoop m ((p, c) :: rest) =
      if extOf p = some "doc" then
        match c with
        | FileData.doc d => loadLoop (insertDoc m (fileStemS p) d) rest
        | _ => Except.error "parse error"
      else loadLoop m rest := rfl

theorem loadLoop_good (m m' : DocMap) (fs : Fs) (h : loadLoop m fs = Except.ok m') :
    goodFs fs := by
  induction fs generalizing m with
  | nil =>
    intro f hf
    simp at hf
  | cons pc rest ih =>
    obtain ⟨p, c⟩ := pc
    rw [loadLoop_cons] at h
    by_cases hp : extOf p = some "doc"
    · rw [if_pos hp] at h
      cases c with
      | doc d =>
        intro f hf hext
        rcases List.mem_cons.mp hf with rfl | hfr
        · exact ⟨d, rfl⟩
        · exact ih _ h f hfr hext
      | blob b => simp at h
      | junk => simp at h
    · rw [if_neg hp] at h
      intro f hf hext
      rcases List.mem_cons.mp hf with rfl | hfr
      · exact absurd hext hp
      · exact ih _ h f hfr hext

theorem loadLoop_ok_of_good (fs : Fs) (h : goodFs fs) (m : DocMap) :
    ∃ m', loadLoop m fs = Except.ok m' := by
  induction fs generalizing m with
  | nil => exact ⟨m, rfl⟩
  | cons pc rest ih =>
    obtain ⟨p, c⟩ := pc
    have hrest : goodFs rest := fun f hf => h f (List.mem_cons_of_mem _ hf)
    rw [loadLoop_cons]
    by_cases hp : extOf p = some "doc"
    · obtain ⟨d, hd⟩ := h (p, c) (List.mem_cons_self _ _) hp
      subst hd
      rw [if_pos hp]
      exact ih hrest _
    · rw [if_neg hp]
      exact ih hrest _

theorem loadLoop_find_untouched (fs : Fs) (k : String)
    (hnone : ∀ f ∈ fs, ¬(extOf f.1 = some "doc" ∧ fileStemS f.1 = k)) (m m' : DocMap)
    (h : loadLoop m fs = Except.ok m') :
    lookupKey m' k = lookupKey m k := by
  induction fs generalizing m with
  | nil =>
    have h' : Except.ok m = Except.ok m' := h
    injection h' with h'
    rw [h']
  | cons pc rest ih =>
    obtain ⟨p, c⟩ := pc
    have hrest : ∀ f ∈ rest, ¬(extOf f.1 = some "doc" ∧ fileStemS f.1 = k) :=
      fun f hf => hnone f (List.mem_cons_of_mem _ hf)
    rw [loadLoop_cons] at h
    by_cases hp : extOf p = some "doc"
    · rw [if_pos hp] at h
      cases c with
      | doc d =>
        have hne : ¬ fileStemS p = k :=
          fun hh => hnone (p, FileData.doc d) (List.mem_cons_self _ _) ⟨hp, hh⟩
        rw [ih hrest _ h, lookupKey_insertDoc, if_neg hne]
      | blob b => simp at h
      | junk => simp at h
    · rw [if_neg hp] at h
      exact ih hrest _ h

theorem stringData_inj (a b : String) (h : a.data = b.data) : a = b := by
  cases a
  cases b
  cases h
  rfl

theorem stemExt_some_inv (l s e : List Char) (h : stemExt l = (s, some e)) :
    l = s ++ ('.') :: e := by
  unfold stemExt at h
  cases hs : splitLast ('.') l with
  | none =>
    rw [hs] at h
    simp at h
  | some pq =>
    obtain ⟨p, q⟩ := pq
    rw [hs] at h
    cases p with
    | nil => simp at h
    | cons a t =>
      simp only [Prod.mk.injEq] at h
      obtain ⟨h1, h2⟩ := h
      injection h2 with h2
      subst h2
      rw [← h1]
      exact splitLast_eq ('.') l (a :: t) q hs

/-- A file name with stem `k` (dot-free, nonempty) and extension `doc` is
exactly `docName k`. -/
theorem doc_name_unique (p k : String) (hk : '.' ∉ k.data) (_hkne : k.data ≠ [])
    (hext : extOf p = some "doc") (hstem : fileStemS p = k) : p = docName k := by
  rcases hse : stemExt p.data with ⟨s, eo⟩
  unfold extOf at hext
  rw [hse] at hext
  cases eo with
  | none => simp at hext
  | some e =>
    simp only [Option.map_some] at hext
    injection hext with hext
    have he : e = "doc".data := by rw [← hext]
    unfold fileStemS at hstem
    rw [hse] at hstem
    have hs : s = k.data := by rw [← hstem]
    have hp : p.data = k.data ++ ('.') :: "doc".data := by
      rw [← he, ← hs]
      exact stemExt_some_inv p.data s e hse
    have hdn : (docName k).data = k.data ++ ('.') :: "doc".data := by
      simp [docName, setExt, stemExt_dotfree k.data hk]
    exact stringData_inj p (docName k) (by rw [hp, hdn])

/-- C4 (amended): if an adopt is interrupted after the metadata write but
before the blob rename, a subsequent load succeeds and recovers the NEW
metadata — so the id is NOT in `find_changed` against the unchanged remote
snapshot (versions now match) and no re-fetch is forced. -/
theorem adopt_crash_load_no_refetch (fs : Fs) (remote : DocMap) (doc : DocsResponse)
    (m₀ : DocMap) (hload : load_data fs = Except.ok m₀)
    (hne : doc.id.data ≠ []) (hdot : '.' ∉ doc.id.data)
    (hwf : remoteWF remote) (hmem : (doc.id, doc) ∈ remote) :
    load_data (writeFile fs (docName doc.id) (FileData.doc doc)) =
      Except.ok (loadedDocs (writeFile fs (docName doc.id) (FileData.doc doc))) ∧
    findDoc (loadedDocs (writeFile fs (docName doc.id) (FileData.doc doc))) doc.id =
      some doc ∧
    doc.id ∉ find_changed (loadedDocs (writeFile fs (docName doc.id) (FileData.doc doc)))
      remote := by
  obtain ⟨hext_doc, _, _, hstem_doc⟩ := extOf_store_names doc.id hne hdot
  have hgood : goodFs fs := loadLoop_good [] m₀ fs hload
  have hgood' : goodFs (writeFile fs (docName doc.id) (FileData.doc doc)) := by
    intro f hf hext
    rcases List.mem_cons.mp hf with rfl | hfr
    · exact ⟨doc, rfl⟩
    · exact hgood f (List.mem_of_mem_filter hfr) hext
  obtain ⟨m', hm'⟩ := loadLoop_ok_of_good _ hgood' []
  have hm'' : load_data (writeFile fs (docName doc.id) (FileData.doc doc)) =
      Except.ok m' := hm'
  have hloaded : loadedDocs (writeFile fs (docName doc.id) (FileData.doc doc)) = m' := by
    unfold loadedDocs
    rw [hm'']
  have hfind : findDoc m' doc.id = some doc := by
    show lookupKey m' doc.id = some doc
    have hsplit : writeFile fs (docName doc.id) (FileData.doc doc) =
        (docName doc.id, FileData.doc doc) :: fs.filter (fun g => g.1 ≠ docName doc.id) := rfl
    rw [hsplit, loadLoop_cons, if_pos hext_doc] at hm'
    have hm3 : loadLoop (insertDoc [] (fileStemS (docName doc.id)) doc)
        (fs.filter (fun g => g.1 ≠ docName doc.id)) = Except.ok m' := hm'
    have hnone : ∀ f ∈ fs.filter (fun g => g.1 ≠ docName doc.id),
        ¬(extOf f.1 = some "doc" ∧ fileStemS f.1 = doc.id) := by
      intro f hf hcontra
      have hne1 : f.1 ≠ docName doc.id := by
        have := List.mem_filter.mp hf
        simpa using this.2
      exact hne1 (doc_name_unique f.1 doc.id hdot hne hcontra.1 hcontra.2)
    have htouch := loadLoop_find_untouched _ doc.id hnone _ m' hm3
    rw [htouch, hstem_doc, lookupKey_insertDoc]
    simp
  refine ⟨?_, ?_, ?_⟩
  · rw [hloaded]
    exact hm''
  · rw [hloaded]
    exact hfind
  · rw [hloaded]
    intro hmem'
    rw [mem_find_changed_wf _ _ _ hwf] at hmem'
    obtain ⟨d', hd', hc⟩ := hmem'
    have hrd : findDoc remote doc.id = some doc :=
      lookupKey_of_mem_nodup remote doc.id doc hwf.1 hmem
    rw [hrd] at hd'
    injection hd' with hd'
    subst hd'
    unfold changedCond at hc
    rw [hfind] at hc
    simp at hc

/-- C4 witness: the amended statement at the concrete pre-crash store of
Scenario `x` (local v1, remote v2). -/
theorem adopt_crash_load_no_refetch_witness :
    load_data (writeFile [(docName "x", FileData.doc (mkDoc "x" 1)),
        (zipName "x", FileData.blob [1])] (docName "x") (FileData.doc (mkDoc "x" 2))) =
      Except.ok (loadedDocs (writeFile [(docName "x", FileData.doc (mkDoc "x" 1)),
        (zipName "x", FileData.blob [1])] (docName "x") (FileData.doc (mkDoc "x" 2)))) ∧
    findDoc (loadedDocs (writeFile [(docName "x", FileData.doc (mkDoc "x" 1)),
        (zipName "x", FileData.blob [1])] (docName "x") (FileData.doc (mkDoc "x" 2))))
      (mkDoc "x" 2).id = some (mkDoc "x" 2) ∧
    (mkDoc "x" 2).id ∉ find_changed
      (loadedDocs (writeFile [(docName "x", FileData.doc (mkDoc "x" 1)),
        (zipName "x", FileData.blob [1])] (docName "x") (FileData.doc (mkDoc "x" 2))))
      crashRemote := by
  have h := adopt_crash_load_no_refetch
    [(docName "x", FileData.doc (mkDoc "x" 1)), (zipName "x", FileData.blob [1])]
    crashRemote (mkDoc "x" 2) [("x", mkDoc "x" 1)] (by rfl) (by decide) (by decide)
    ⟨by decide, by decide⟩ (by decide)
  exact h

/-- C4 counterexample: at the concrete crashed directory (new metadata `v2`,
old blob, leftover temp file) with the unchanged remote listing `x` at `v2`,
the load succeeds but `x` is NOT a member of the outdated set — no re-fetch
is forced, contrary to the claim. -/
theorem adopt_crash_counterexample :
    load_data crashFs = Except.ok (loadedDocs crashFs) ∧
    findDoc (loadedDocs crashFs) "x" = some (mkDoc "x" 2) ∧
    "x" ∉ find_changed (loadedDocs crashFs) crashRemote := by
  refine ⟨by rfl, by decide, by decide⟩

/-! ## Helper lemmas on the pass -/

theorem removeLoop_cons (st : Store) (a : String) (rest : List String) :
    removeLoop st (a :: rest) =
      match removeFile st.fs (docName a) with
      | Except.error e => ({ fs := st.fs, docs := eraseDoc st.docs a }, some e)
      | Except.ok fs1 =>
        match removeFile fs1 (zipName a) with
        | Except.error e => ({ fs := fs1, docs := eraseDoc st.docs a }, some e)
        | Except.ok fs2 => removeLoop { fs := fs2, docs := eraseDoc st.docs a } rest := rfl

theorem removeLoop_docs (l : List String) (st st' : Store)
    (h : removeLoop st l = (st', none)) (k : String) :
    findDoc st'.docs k = if k ∈ l then none else findDoc st.docs k := by
  induction l generalizing st with
  | nil =>
    have h' : (st, (none : Option String)) = (st', none) := h
    injection h' with h1 _
    rw [← h1]
    simp
  | cons a rest ih =>
    rw [removeLoop_cons] at h
    cases h1 : removeFile st.fs (docName a) with
    | error e =>
      rw [h1] at h
      simp at h
    | ok fs1 =>
      rw [h1] at h
      have h' : (match removeFile fs1 (zipName a) with
          | Except.error e => ({ fs := fs1, docs := eraseDoc st.docs a }, some e)
          | Except.ok fs2 => removeLoop { fs := fs2, docs := eraseDoc st.docs a } rest) =
          (st', none) := h
      cases h2 : removeFile fs1 (zipName a) with
      | error e =>
        rw [h2] at h'
        simp at h'
      | ok fs2 =>
        rw [h2] at h'
        rw [ih { fs := fs2, docs := eraseDoc st.docs a } h']
        by_cases hk : a = k
        · subst hk
          simp [findDoc_eraseDoc]
        · have hk' : ¬ k = a := fun hh => hk hh.symm
          by_cases hkr : k ∈ rest
          · simp [hkr, List.mem_cons]
          · simp [hkr, List.mem_cons, hk', findDoc_eraseDoc, hk]

theorem adopt_doc_ok_docs (st : Store) (doc : DocsResponse) (zip : String) (ok : Bool)
    (st2 : Store) (h : adopt_doc st doc zip ok = (st2, none)) :
    st2.docs = insertDoc st.docs doc.id doc := by
  cases hr : renameFile (writeFile st.fs (docName doc.id) (FileData.doc doc)) zip
      (zipName doc.id) ok with
  | error e =>
    simp [adopt_doc, hr] at h
  | ok fs2 =>
    have h2 : ({ fs := fs2, docs := insertDoc st.docs doc.id doc }, (none : Option String)) =
        (st2, none) := by
      rw [← h]
      simp [adopt_doc, hr]
    injection h2 with h2 _
    rw [← h2]

theorem fetchLoop_docs (remote : DocMap) (fetch : String → Option (List Nat))
    (renameOk : String → Bool) (l : List String) (st st' : Store) (hwf : remoteWF remote)
    (h : fetchLoop remote fetch renameOk st l = Except.ok st') (k : String) :
    (k ∉ l → findDoc st'.docs k = findDoc st.docs k) ∧
    (k ∈ l → ∃ d, findDoc remote k = some d ∧ findDoc st'.docs k = some d) := by
  induction l generalizing st with
  | nil =>
    have h' : Except.ok st = Except.ok st' := h
    injection h' with h'
    subst h'
    exact ⟨fun _ => rfl, fun hk => absurd hk (by simp)⟩
  | cons u rest ih =>
    rw [fetchLoop_cons] at h
    cases hf : fetch u with
    | none =>
      rw [hf] at h
      simp at h
    | some b =>
      rw [hf] at h
      have hB : (match findDoc remote u with
          | none => Except.error "no such doc"
          | some d =>
            match adopt_doc { fs := fetchTempFs st u b, docs := st.docs } d (downloadName u)
                (renameOk u) with
            | (_, some e) => Except.error e
            | (st2, none) => fetchLoop remote fetch renameOk st2 rest) = Except.ok st' := h
      cases hd : findDoc remote u with
      | none =>
        rw [hd] at hB
        simp at hB
      | some d =>
        rw [hd] at hB
        have hC : (match adopt_doc { fs := fetchTempFs st u b, docs := st.docs } d
            (downloadName u) (renameOk u) with
            | (_, some e) => Except.error e
            | (st2, none) => fetchLoop remote fetch renameOk st2 rest) = Except.ok st' := hB
        rcases hA : adopt_doc { fs := fetchTempFs st u b, docs := st.docs } d
            (downloadName u) (renameOk u) with ⟨st2, eo⟩
        rw [hA] at hC
        cases eo with
        | some e => simp at hC
        | none =>
          have h : fetchLoop remote fetch renameOk st2 rest = Except.ok st' := hC
          have hdocs2 : st2.docs = insertDoc st.docs d.id d := by
            have := adopt_doc_ok_docs _ _ _ _ _ hA
            simpa using this
          have hid : d.id = u := hwf.2 (u, d) (lookupKey_mem remote u d hd)
          obtain ⟨ih1, ih2⟩ := ih st2 h
          constructor
          · intro hk
            simp only [List.mem_cons, not_or] at hk
            rw [ih1 hk.2, hdocs2, findDoc_insertDoc, hid]
            rw [if_neg (fun hh => hk.1 hh.symm)]
          · intro hk
            rcases List.mem_cons.mp hk with rfl | hkr
            · by_cases hkr2 : k ∈ rest
              · exact ih2 hkr2
              · refine ⟨d, hd, ?_⟩
                rw [ih1 hkr2, hdocs2, findDoc_insertDoc, hid]
                simp
            · exact ih2 hkr

/-- C8: if a pass runs to completion with every per-id deletion, fetch and
adopt succeeding (i.e. `server_pull_sync` returns `ok`), then against the
unchanged remote snapshot the resulting state has an empty stale set and an
empty outdated set — a second pass would delete and fetch nothing. -/
theorem server_pull_pass_idempotent (st : Store) (remote : DocMap)
    (fetch : String → Option (List Nat)) (renameOk : String → Bool) (st' : Store)
    (hwf : remoteWF remote)
    (h : server_pull_sync st remote fetch renameOk = Except.ok st') :
    staleIds st'.docs (keysOf remote) = [] ∧ find_changed st'.docs remote = [] := by
  unfold server_pull_sync at h
  rcases hrm : remove_not_listed st (keysOf remote) with ⟨st1, e1⟩
  rw [hrm] at h
  cases e1 with
  | some e => simp at h
  | none =>
    have h2 : fetchLoop remote fetch renameOk st1 (find_changed st1.docs remote) =
        Except.ok st' := h
    have hrl : removeLoop st (staleIds st.docs (keysOf remote)) = (st1, none) := hrm
    have hdel := fun k => removeLoop_docs _ st st1 hrl k
    have hfl := fun k => fetchLoop_docs remote fetch renameOk _ st1 st' hwf h2 k
    have hmem_remote : ∀ k, (findDoc st'.docs k).isSome = true → k ∈ keysOf remote := by
      intro k hk
      by_cases hc : k ∈ find_changed st1.docs remote
      · obtain ⟨d, hd, _⟩ := (hfl k).2 hc
        exact (lookupKey_isSome_iff remote k).mp (Option.isSome_iff_exists.mpr ⟨d, hd⟩)
      · rw [(hfl k).1 hc] at hk
        rw [hdel k] at hk
        by_cases hs : k ∈ staleIds st.docs (keysOf remote)
        · rw [if_pos hs] at hk
          simp at hk
        · rw [if_neg hs] at hk
          have hkeys : k ∈ keysOf st.docs := (lookupKey_isSome_iff st.docs k).mp hk
          by_cases hr : k ∈ keysOf remote
          · exact hr
          · exact absurd ((mem_staleIds st.docs (keysOf remote) k).mpr ⟨hkeys, hr⟩) hs
    constructor
    · unfold staleIds
      rw [List.filter_eq_nil_iff]
      intro a ha
      simp only [decide_eq_true_eq, not_not]
      exact hmem_remote a ((lookupKey_isSome_iff st'.docs a).mpr ha)
    · unfold find_changed
      rw [List.map_eq_nil_iff, List.filter_eq_nil_iff]
      intro d hd
      obtain ⟨kv, hkv, hsnd⟩ := List.mem_map.mp hd
      have hkvid : kv.2.id = kv.1 := hwf.2 kv hkv
      have hmemr : (d.id, d) ∈ remote := by
        have : kv = (d.id, d) := by
          obtain ⟨a, b⟩ := kv
          simp only at hkvid hsnd
          rw [← hsnd, hkvid, hsnd]
        exact this ▸ hkv
      have hd_remote : findDoc remote d.id = some d :=
        lookupKey_of_mem_nodup remote d.id d hwf.1 hmemr
      intro hcond
      by_cases hc : d.id ∈ find_changed st1.docs remote
      · obtain ⟨d', hd', hfi⟩ := (hfl d.id).2 hc
        rw [hd_remote] at hd'
        injection hd' with hd'
        subst hd'
        unfold changedCond at hcond
        rw [hfi] at hcond
        simp at hcond
      · have hst' : findDoc st'.docs d.id = findDoc st1.docs d.id := (hfl d.id).1 hc
        have hcc1 : changedCond st1.docs d = false := by
          cases hcc : changedCond st1.docs d with
          | false => rfl
          | true =>
            exact absurd ((mem_find_changed_wf st1.docs remote d.id hwf).mpr
              ⟨d, hd_remote, hcc⟩) hc
        obtain ⟨l, hl, hv⟩ := (changedCond_eq_false_iff st1.docs d).mp hcc1
        unfold changedCond at hcond
        rw [hst', hl] at hcond
        simp [hv] at hcond

/-- C8 witness: a fully successful pass over `passStore` against Scenario
A's snapshot yields a state with empty stale and outdated sets. -/
theorem server_pull_pass_idempotent_witness :
    staleIds passResult.docs (keysOf scenARemote) = [] ∧
    find_changed passResult.docs scenARemote = [] :=
  server_pull_pass_idempotent passStore scenARemote (fun _ => some [5]) (fun _ => true)
    passResult ⟨by decide, by decide⟩ (by rfl)

end Remsync
